import Mathlib

/-!
Verification of the `octacian/migrate` schema-migration engine.

The Go sources (`instance.go`, `migration.go`, the part scanner `NewPart`)
are embedded shallowly: strings are modelled as `List Char`, the SQLite
database and the metadb ledger are modelled by an abstract state type and
an explicit `World`, and `database/sql` transactions are modelled by an
environment of oracles (`Env`) together with an event trace recording each
`Begin`/`Exec`/`Rollback`/`Commit`/ledger-`Set` call in order.
-/

deriving instance DecidableEq for Except

namespace Migrate

/-! ## Part files (`NewPart`, instance_test.go bundle lines 156-223) -/

/-- Characters trimmed by Go's `strings.TrimSpace` (`unicode.IsSpace`). -/
def goIsSpace (c : Char) : Bool :=
  c == ' ' || c == '\t' || c == '\n' || c.val == 11 || c.val == 12 || c == '\r' ||
  c.val == 0x85 || c.val == 0xA0 || c.val == 0x1680 ||
  (0x2000 ≤ c.val && c.val ≤ 0x200A) || c.val == 0x2028 || c.val == 0x2029 ||
  c.val == 0x202F || c.val == 0x205F || c.val == 0x3000

/-- `strings.TrimSpace`: drop whitespace from both ends of a line. -/
def trim (cs : List Char) : List Char :=
  ((cs.dropWhile goIsSpace).reverse.dropWhile goIsSpace).reverse

/-- The `\s` character class of Go's regexp package (RE2 Perl class). -/
def isRegexSpace (c : Char) : Bool :=
  c == '\t' || c == '\n' || c.val == 12 || c == '\r' || c == ' '

/-- Migration direction, the `(up|down)` capture of `regexPartDir`. -/
inductive Dir : Type
  | up
  | down
deriving DecidableEq

/-- Matching of the anchored marker regexp `^--\s?@migrate/(up|down)$`
against an (already trimmed) line. -/
def matchMarker (text : List Char) : Option Dir :=
  match text with
  | '-' :: '-' :: rest =>
    let body :=
      match rest with
      | c :: cs => if isRegexSpace c then cs else c :: cs
      | [] => []
    if body = "@migrate/up".data then some Dir.up
    else if body = "@migrate/down".data then some Dir.down
    else none
  | _ => none

/-- The `which` accumulation selector of `NewPart`: `-1`, `0` (up), `1` (down). -/
inductive Which : Type
  | none
  | up
  | down
deriving DecidableEq

/-- Convert a matched marker direction into the `which` selector. -/
def Which.ofDir : Dir → Which
  | Dir.up => Which.up
  | Dir.down => Which.down

/-- The scanner state of `NewPart`: accumulated `upSQL`, `downSQL`, `which`. -/
structure PartAcc : Type where
  up : List Char
  down : List Char
  which : Which
deriving DecidableEq

/-- Error kinds raised by `NewPart`. -/
inductive PartErr : Type
  | noMarker
  | noUp
  | noDown
deriving DecidableEq

/-- One iteration of `NewPart`'s scanner loop on a single line. -/
def scanLine (acc : PartAcc) (line : List Char) : Except PartErr PartAcc :=
  let text := trim line
  match matchMarker text with
  | some d => Except.ok { acc with which := Which.ofDir d }
  | none =>
    if text = [] then Except.ok acc
    else
      match acc.which with
      | Which.up => Except.ok { acc with up := acc.up ++ text }
      | Which.down => Except.ok { acc with down := acc.down ++ text }
      | Which.none => Except.error PartErr.noMarker

/-- The whole scanner loop of `NewPart` over the file's lines. -/
def scanLines : PartAcc → List (List Char) → Except PartErr PartAcc
  | acc, [] => Except.ok acc
  | acc, l :: ls =>
    match scanLine acc l with
    | Except.ok acc' => scanLines acc' ls
    | Except.error e => Except.error e

/-- `NewPart` on the list of lines of a part file: scan all lines, then
reject a file with no marker, an empty up body, or an empty down body.
Returns the `(upSQL, downSQL)` pair. -/
def NewPart (lines : List (List Char)) : Except PartErr (List Char × List Char) :=
  match scanLines ⟨[], [], Which.none⟩ lines with
  | Except.error e => Except.error e
  | Except.ok acc =>
    if acc.which = Which.none then Except.error PartErr.noMarker
    else if acc.up = [] then Except.error PartErr.noUp
    else if acc.down = [] then Except.error PartErr.noDown
    else Except.ok (acc.up, acc.down)

/-- Split file content into lines at `'\n'` (as `bufio.Scanner` yields them;
a trailing empty segment is blank and is ignored by the scanner loop). -/
def splitLines : List Char → List (List Char)
  | [] => [[]]
  | c :: cs =>
    if c = '\n' then [] :: splitLines cs
    else
      match splitLines cs with
      | l :: ls => (c :: l) :: ls
      | [] => [[c]]

/-- `NewPart` applied to raw file content. -/
def NewPartContent (content : List Char) : Except PartErr (List Char × List Char) :=
  NewPart (splitLines content)

/-! ## Migration directory names (`NewMigration`, migration.go lines 25-42) -/

/-- ASCII decimal digit test, as in `strconv.ParseInt` with base 10. -/
def isDigit (c : Char) : Bool := '0' ≤ c && c ≤ '9'

/-- Value of a digit string (most significant digit first). -/
def digitsVal (ds : List Char) : Nat :=
  ds.foldl (fun a c => a * 10 + (c.toNat - '0'.toNat)) 0

/-- Digits parsing inside `strconv.Atoi`: at least one character, all
decimal digits. -/
def parseDigits (cs : List Char) : Option Nat :=
  if cs ≠ [] ∧ cs.all isDigit then some (digitsVal cs) else none

/-- Digit accumulation and range check of `strconv.ParseInt`: the digits'
value, negated when the sign was `'-'`, must lie in the signed 64-bit
range; a value out of range is a range error. -/
def atoiCore (neg : Bool) (digits : List Char) : Option Int :=
  match parseDigits digits with
  | none => none
  | some n =>
    if cond neg (-(n : Int)) (n : Int) < -(2 ^ 63) ∨
        2 ^ 63 - 1 < cond neg (-(n : Int)) (n : Int) then none
    else some (cond neg (-(n : Int)) (n : Int))

/-- Go's `strconv.Atoi` (= `ParseInt` base 10, 64-bit): an optional leading
`'+'` or `'-'` sign, then one or more decimal digits; any other character
(including whitespace) is a syntax error, and a value outside the signed
64-bit range is a range error. Errors are collapsed to `none`. -/
def atoi (cs : List Char) : Option Int :=
  match cs with
  | [] => none
  | c :: rest =>
    if c = '-' then atoiCore true rest
    else if c = '+' then atoiCore false rest
    else atoiCore false (c :: rest)

/-- Error kinds of the name-validation part of `NewMigration`. -/
inductive NameErr : Type
  | badFormat
  | parseFail
  | reservedZero
deriving DecidableEq

/-- The name-validation and version-parsing part of `NewMigration`
(migration.go lines 26-42): the final name component must be at least 9
characters and start with `version_`, the suffix is parsed with
`strconv.Atoi`, and the parsed version `0` is rejected. -/
def parseVersionName (name : List Char) : Except NameErr Int :=
  if name.length < 9 ∨ name.take 8 ≠ "version_".data then Except.error NameErr.badFormat
  else
    match atoi (name.drop 8) with
    | none => Except.error NameErr.parseFail
    | some v => if v = 0 then Except.error NameErr.reservedZero else Except.ok v

/-- Acceptance predicate following the amended wording of the naming
convention: the name is `version_` followed by an optional `'+'` or `'-'`
sign and one or more decimal digits, whose signed value fits in 64 bits
and is not the reserved version `0`. -/
def amendedAccepts (name : List Char) : Prop :=
  ∃ sign ds, name = "version_".data ++ (sign ++ ds) ∧
    (sign = [] ∨ sign = ['+'] ∨ sign = ['-']) ∧
    ds ≠ [] ∧ (∀ c ∈ ds, isDigit c = true) ∧
    (-(2 ^ 63) ≤ (if sign = ['-'] then -(digitsVal ds : Int) else (digitsVal ds : Int)) ∧
      (if sign = ['-'] then -(digitsVal ds : Int) else (digitsVal ds : Int)) ≤ 2 ^ 63 - 1 ∧
      (if sign = ['-'] then -(digitsVal ds : Int) else (digitsVal ds : Int)) ≠ 0)

/-! ## Instance construction (`NewInstance`, instance.go lines 86-106) -/

/-- Insert into an ascending list, as a model of `sort.Ints`. -/
def insertAsc (x : Int) : List Int → List Int
  | [] => [x]
  | y :: ys => if x ≤ y then x :: y :: ys else y :: insertAsc x ys

/-- Ascending sort of the discovered version keys (`sort.Ints`). -/
def sortAsc : List Int → List Int
  | [] => []
  | x :: xs => insertAsc x (sortAsc xs)

/-- The gap-scan loop of `NewInstance`: walk the sorted keys from
`lastVersion = 0`; the first key different from `lastVersion + 1` produces
the "found gap between migration version `last` and `key`" error pair. -/
def gapCheck : Int → List Int → Option (Int × Int)
  | _, [] => none
  | last, k :: ks => if k ≠ last + 1 then some (last, k) else gapCheck (last + 1) ks

/-- Gap validation of `NewInstance` on the discovered version keys:
`none` means construction proceeds, `some (x, y)` is the gap error. -/
def NewInstanceGap (versions : List Int) : Option (Int × Int) :=
  gapCheck 0 (sortAsc versions)

/-! ## The Goto/Latest engine (instance.go lines 129-250) -/

/-- A part's extracted data as used by the engine. -/
structure Part : Type where
  name : List Char
  up : List Char
  down : List Char
deriving DecidableEq

/-- A migration: version number and ordered parts. -/
structure Migration : Type where
  name : List Char
  version : Int
  parts : List Part
deriving DecidableEq

/-- Oracles for the external collaborators of `Goto`: whether `db.Begin`
succeeds, the effect of `Transaction.Exec` on the transaction state
(`none` = statement failed), whether `Commit` succeeds from a given
transaction state, and whether the ledger `Set` succeeds. -/
structure Env (σ : Type) : Type where
  beginOk : Bool
  exec : σ → List Char → Option σ
  commitOk : σ → Bool
  setOk : Bool

/-- The observable persistent state: the committed database state and the
ledger entry stored under the fixed key `migrateVersion`
(`none` = no entry yet, the pristine state). -/
structure World (σ : Type) : Type where
  db : σ
  ledger : Option Int
deriving DecidableEq

/-- `Instance.Version` (instance.go lines 112-123): the ledger value, or
`0` when no entry exists. -/
def Version {σ : Type} (w : World σ) : Int :=
  w.ledger.getD 0

/-- Events recording each call made against the collaborators, in order. -/
inductive Ev : Type
  | begin
  | exec (stmt : List Char)
  | rollback
  | commit
  | setVersion (v : Int)
deriving DecidableEq

/-- Outcomes of `Goto`/`Latest`. `noVersion` is the `ErrNoVersion` error
"migration for version 'i', on the way to version 'target', does not
exist"; `noMigrations` and `alreadyLatest` are the two messages of the
`ErrNoMigrations` type; `applyFail` is the generic "error applying
migrations" failure. -/
inductive GotoErr : Type
  | noVersion (i target : Int)
  | noMigrations (v : Int)
  | alreadyLatest (v : Int)
  | beginFail
  | applyFail
  | commitFail
  | setFail
deriving DecidableEq

/-- The SQL body a part contributes in a given direction. -/
def stmtOf : Dir → Part → List Char
  | Dir.up, p => p.up
  | Dir.down, p => p.down

/-- Result of applying all parts of one migration: final transaction
state, counts of applied and failed parts, and the `Exec` events. -/
structure ApplyRes (σ : Type) : Type where
  tx : σ
  applied : Nat
  failed : Nat
  evs : List Ev

/-- The inner part loop of `Goto` (instance.go lines 186-203): every part
is attempted in stored order; a failed `Exec` is counted and the loop
continues with the next part. -/
def applyParts {σ : Type} (E : Env σ) (d : Dir) : σ → List Part → ApplyRes σ
  | tx, [] => ⟨tx, 0, 0, []⟩
  | tx, p :: ps =>
    match E.exec tx (stmtOf d p) with
    | some tx' =>
      let r := applyParts E d tx' ps
      ⟨r.tx, r.applied + 1, r.failed, Ev.exec (stmtOf d p) :: r.evs⟩
    | none =>
      let r := applyParts E d tx ps
      ⟨r.tx, r.applied, r.failed + 1, Ev.exec (stmtOf d p) :: r.evs⟩

/-- The migration loop of `Goto` (instance.go lines 179-215): apply each
migration's parts; if any part of a migration failed, stop right after
that migration (`none`), otherwise continue with the updated transaction
state. -/
def runTodo {σ : Type} (E : Env σ) (d : Dir) : σ → List Migration → Option σ × List Ev
  | tx, [] => (some tx, [])
  | tx, m :: ms =>
    if (applyParts E d tx m.parts).failed ≠ 0 then (none, (applyParts E d tx m.parts).evs)
    else ((runTodo E d (applyParts E d tx m.parts).tx ms).1,
      (applyParts E d tx m.parts).evs ++ (runTodo E d (applyParts E d tx m.parts).tx ms).2)

/-- The execution phase of `Goto` (instance.go lines 173-228): begin a
transaction on the current database state, run the step list, roll back
and fail on any part failure, otherwise commit and only then write the
target version to the ledger. A failed commit leaves both the database
and the ledger unchanged; a failed ledger write leaves the committed
database but the old ledger entry. -/
def runGoto {σ : Type} (E : Env σ) (w : World σ) (version : Int) (todo : List Migration)
    (d : Dir) : Except GotoErr Unit × World σ × List Ev :=
  if E.beginOk then
    match runTodo E d w.db todo with
    | (none, tr) => (Except.error GotoErr.applyFail, w, Ev.begin :: tr ++ [Ev.rollback])
    | (some tx, tr) =>
      if E.commitOk tx then
        if E.setOk then
          (Except.ok (), ⟨tx, some version⟩, Ev.begin :: tr ++ [Ev.commit, Ev.setVersion version])
        else
          (Except.error GotoErr.setFail, ⟨tx, w.ledger⟩,
            Ev.begin :: tr ++ [Ev.commit, Ev.setVersion version])
      else (Except.error GotoErr.commitFail, w, Ev.begin :: tr ++ [Ev.commit])
  else (Except.error GotoErr.beginFail, w, [Ev.begin])

/-- The versions visited by the up loop of `Goto`:
`currentVersion + 1, …, version` (instance.go line 148). -/
def upVersions (current target : Int) : List Int :=
  (List.range (target - current).toNat).map (fun (k : Nat) => current + 1 + (k : Int))

/-- The versions visited by the down loop of `Goto`:
`currentVersion - 1, …, version + 1` (instance.go line 156). -/
def downVersions (current target : Int) : List Int :=
  (List.range (current - target - 1).toNat).map (fun (k : Nat) => current - 1 - (k : Int))

/-- The `addToTodo` loop: look each version up in the migration map,
failing with the first version that does not exist. -/
def buildTodo (find : Int → Option Migration) : List Int → Except Int (List Migration)
  | [] => Except.ok []
  | i :: is =>
    match find i with
    | none => Except.error i
    | some m =>
      match buildTodo find is with
      | Except.error j => Except.error j
      | Except.ok ms => Except.ok (m :: ms)

/-- Lookup in `instance.migrations` by exact version key. -/
def lookup (inst : List Migration) (v : Int) : Option Migration :=
  inst.find? (fun m => m.version == v)

/-- `Instance.Goto` (instance.go lines 129-228). -/
def Goto {σ : Type} (E : Env σ) (inst : List Migration) (w : World σ) (version : Int) :
    Except GotoErr Unit × World σ × List Ev :=
  let currentVersion := Version w
  if version > currentVersion then
    match buildTodo (lookup inst) (upVersions currentVersion version) with
    | Except.error i => (Except.error (GotoErr.noVersion i version), w, [])
    | Except.ok todo => runGoto E w version todo Dir.up
  else if version < currentVersion then
    match buildTodo (lookup inst) (downVersions currentVersion version) with
    | Except.error i => (Except.error (GotoErr.noVersion i version), w, [])
    | Except.ok todo => runGoto E w version todo Dir.down
  else (Except.error (GotoErr.noMigrations currentVersion), w, [])

/-- The highest available version as computed by `Instance.Latest`
(instance.go lines 235-242): a running maximum started at `0`. -/
def latestVersion (migs : List Migration) : Int :=
  migs.foldl (fun acc m => max acc m.version) 0

/-- `Instance.Latest` (instance.go lines 233-250). -/
def Latest {σ : Type} (E : Env σ) (inst : List Migration) (w : World σ) :
    Except GotoErr Unit × World σ × List Ev :=
  let currentVersion := Version w
  if latestVersion inst ≤ currentVersion then
    (Except.error (GotoErr.alreadyLatest currentVersion), w, ([] : List Ev))
  else Goto E inst w (latestVersion inst)

/-! ## Concrete instances used by witnesses and counterexamples -/

/-- A concrete database state: the list of executed statements. -/
abbrev DB : Type := List (List Char)

/-- An environment in which every collaborator call succeeds and `Exec`
appends the statement to the database state. -/
def envAll : Env DB :=
  ⟨true, fun tx s => some (tx ++ [s]), fun _ => true, true⟩

/-- An environment in which executing the statement `BAD` fails and
everything else succeeds. -/
def envBad : Env DB :=
  ⟨true, fun tx s => if s = "BAD".data then none else some (tx ++ [s]), fun _ => true, true⟩

/-- An environment in which `Commit` always fails. -/
def envNoCommit : Env DB :=
  ⟨true, fun tx s => some (tx ++ [s]), fun _ => false, true⟩

/-- Migration 1 with a single part (`up` body `U1`, `down` body `D1`). -/
def mig1 : Migration := ⟨"version_1".data, 1, [⟨"a.sql".data, "U1".data, "D1".data⟩]⟩

/-- Migration 2 with a single part. -/
def mig2 : Migration := ⟨"version_2".data, 2, [⟨"a.sql".data, "U2".data, "D2".data⟩]⟩

/-- Migration 3 with a single part. -/
def mig3 : Migration := ⟨"version_3".data, 3, [⟨"a.sql".data, "U3".data, "D3".data⟩]⟩

/-- A migration whose second of three parts fails under `envBad`. -/
def migBad : Migration :=
  ⟨"version_2".data, 2,
    [⟨"a.sql".data, "G1".data, "H1".data⟩,
     ⟨"b.sql".data, "BAD".data, "BAD".data⟩,
     ⟨"c.sql".data, "G3".data, "H3".data⟩]⟩

/-- The contiguous three-migration instance of the working test fixture. -/
def inst3 : List Migration := [mig1, mig2, mig3]

/-- A single-migration instance. -/
def inst1 : List Migration := [mig1]

/-- An instance missing version 2 (versions 1 and 3 present). -/
def instHole : List Migration := [mig1, mig3]

/-! ## Basic lemmas about the engine -/

theorem applyParts_evs {σ : Type} (E : Env σ) (d : Dir) (tx : σ) (ps : List Part) :
    (applyParts E d tx ps).evs = ps.map (fun p => Ev.exec (stmtOf d p)) := by
  induction ps generalizing tx with
  | nil => rfl
  | cons p ps ih =>
    cases h : E.exec tx (stmtOf d p) with
    | none => simp [applyParts, h, ih]
    | some tx' => simp [applyParts, h, ih]

theorem runTodo_evs_exec {σ : Type} (E : Env σ) (d : Dir) (tx : σ) (ms : List Migration) :
    ∀ e ∈ (runTodo E d tx ms).2, ∃ s, e = Ev.exec s := by
  induction ms generalizing tx with
  | nil => intro e he; simp [runTodo] at he
  | cons m ms ih =>
    intro e he
    unfold runTodo at he
    by_cases hf : (applyParts E d tx m.parts).failed ≠ 0
    · rw [if_pos hf] at he
      rw [applyParts_evs] at he
      obtain ⟨p, -, rfl⟩ := List.mem_map.mp he
      exact ⟨_, rfl⟩
    · rw [if_neg hf] at he
      rcases List.mem_append.mp he with h | h
      · rw [applyParts_evs] at h
        obtain ⟨p, -, rfl⟩ := List.mem_map.mp h
        exact ⟨_, rfl⟩
      · exact ih _ _ h

theorem runTodo_append {σ : Type} (E : Env σ) (d : Dir) {tx tx1 : σ}
    {ms1 : List Migration} {tr1 : List Ev} (ms2 : List Migration)
    (h : runTodo E d tx ms1 = (some tx1, tr1)) :
    runTodo E d tx (ms1 ++ ms2) =
      ((runTodo E d tx1 ms2).1, tr1 ++ (runTodo E d tx1 ms2).2) := by
  induction ms1 generalizing tx tr1 with
  | nil =>
    simp only [runTodo, Prod.mk.injEq, Option.some.injEq] at h
    obtain ⟨rfl, rfl⟩ := h
    simp
  | cons m ms ih =>
    simp only [List.cons_append, runTodo, List.append_eq] at h ⊢
    by_cases hf : (applyParts E d tx m.parts).failed ≠ 0
    · rw [if_pos hf] at h
      simp at h
    · rw [if_neg hf] at h ⊢
      have h1 : (runTodo E d (applyParts E d tx m.parts).tx ms).1 = some tx1 :=
        congrArg Prod.fst h
      have h2 : (applyParts E d tx m.parts).evs ++
          (runTodo E d (applyParts E d tx m.parts).tx ms).2 = tr1 :=
        congrArg Prod.snd h
      have hms : runTodo E d (applyParts E d tx m.parts).tx ms =
          (some tx1, (runTodo E d (applyParts E d tx m.parts).tx ms).2) := by
        rw [← h1]
      rw [ih hms]
      simp [← h2, List.append_assoc]

theorem lookup_version {inst : List Migration} {i : Int} {m : Migration}
    (h : lookup inst i = some m) : m.version = i := by
  have := List.find?_some h
  simpa using this

theorem buildTodo_ok_map {find : Int → Option Migration} {is : List Int} {ms : List Migration}
    (hv : ∀ i m, find i = some m → m.version = i)
    (h : buildTodo find is = Except.ok ms) :
    ms.map (fun m => m.version) = is := by
  induction is generalizing ms with
  | nil => simp only [buildTodo] at h; cases h; rfl
  | cons i is ih =>
    simp only [buildTodo] at h
    cases hf : find i with
    | none => rw [hf] at h; cases h
    | some m =>
      rw [hf] at h
      cases hb : buildTodo find is with
      | error j => rw [hb] at h; cases h
      | ok ms' =>
        rw [hb] at h
        cases h
        simp [ih hb, hv i m hf]

theorem buildTodo_ok_mem {find : Int → Option Migration} {is : List Int} {ms : List Migration}
    (h : buildTodo find is = Except.ok ms) :
    ∀ m ∈ ms, ∃ i ∈ is, find i = some m := by
  induction is generalizing ms with
  | nil => simp only [buildTodo] at h; cases h; simp
  | cons i is ih =>
    simp only [buildTodo] at h
    cases hf : find i with
    | none => rw [hf] at h; cases h
    | some m' =>
      rw [hf] at h
      cases hb : buildTodo find is with
      | error j => rw [hb] at h; cases h
      | ok ms' =>
        rw [hb] at h
        cases h
        intro m hm
        rcases List.mem_cons.mp hm with rfl | hm
        · exact ⟨i, List.mem_cons_self .., hf⟩
        · obtain ⟨j, hj, hfj⟩ := ih hb m hm
          exact ⟨j, List.mem_cons_of_mem _ hj, hfj⟩

theorem buildTodo_ok_found {find : Int → Option Migration} {is : List Int} {ms : List Migration}
    (h : buildTodo find is = Except.ok ms) :
    ∀ i ∈ is, ∃ m, find i = some m := by
  induction is generalizing ms with
  | nil => simp
  | cons i is ih =>
    simp only [buildTodo] at h
    cases hf : find i with
    | none => rw [hf] at h; cases h
    | some m' =>
      rw [hf] at h
      cases hb : buildTodo find is with
      | error j => rw [hb] at h; cases h
      | ok ms' =>
        intro j hj
        rcases List.mem_cons.mp hj with rfl | hj
        · exact ⟨m', hf⟩
        · exact ih hb j hj

theorem buildTodo_error_spec {find : Int → Option Migration} {is : List Int} {j : Int}
    (h : buildTodo find is = Except.error j) :
    j ∈ is ∧ find j = none := by
  induction is with
  | nil => simp only [buildTodo] at h; cases h
  | cons i is ih =>
    simp only [buildTodo] at h
    cases hf : find i with
    | none =>
      rw [hf] at h
      cases h
      exact ⟨List.mem_cons_self .., hf⟩
    | some m =>
      rw [hf] at h
      cases hb : buildTodo find is with
      | error j' =>
        rw [hb] at h
        cases h
        obtain ⟨h1, h2⟩ := ih hb
        exact ⟨List.mem_cons_of_mem _ h1, h2⟩
      | ok ms => rw [hb] at h; cases h

theorem mem_upVersions {c t i : Int} : i ∈ upVersions c t ↔ c < i ∧ i ≤ t := by
  constructor
  · intro h
    obtain ⟨k, hk, hke⟩ := List.mem_map.mp h
    have hk' : k < (t - c).toNat := List.mem_range.mp hk
    have he : c + 1 + (k : Int) = i := hke
    omega
  · intro h
    refine List.mem_map.mpr ⟨(i - c - 1).toNat, List.mem_range.mpr (by omega), ?_⟩
    show c + 1 + (((i - c - 1).toNat : Nat) : Int) = i
    omega

theorem mem_downVersions {c t i : Int} : i ∈ downVersions c t ↔ t < i ∧ i < c := by
  constructor
  · intro h
    obtain ⟨k, hk, hke⟩ := List.mem_map.mp h
    have hk' : k < (c - t - 1).toNat := List.mem_range.mp hk
    have he : c - 1 - (k : Int) = i := hke
    omega
  · intro h
    refine List.mem_map.mpr ⟨(c - 1 - i).toNat, List.mem_range.mpr (by omega), ?_⟩
    show c - 1 - (((c - 1 - i).toNat : Nat) : Int) = i
    omega

theorem downVersions_pairwise (c t : Int) :
    (downVersions c t).Pairwise (fun a b => b < a) := by
  unfold downVersions
  refine List.Pairwise.map _ (fun a b hab => ?_) (List.pairwise_lt_range _)
  omega

theorem goto_up_run {σ : Type} (E : Env σ) (inst : List Migration) (w : World σ)
    (version : Int) (todo : List Migration) (h : Version w < version)
    (ht : buildTodo (lookup inst) (upVersions (Version w) version) = Except.ok todo) :
    Goto E inst w version = runGoto E w version todo Dir.up := by
  simp only [Goto]
  rw [if_pos (show version > Version w from h), ht]

theorem goto_down_run {σ : Type} (E : Env σ) (inst : List Migration) (w : World σ)
    (version : Int) (todo : List Migration) (h : version < Version w)
    (ht : buildTodo (lookup inst) (downVersions (Version w) version) = Except.ok todo) :
    Goto E inst w version = runGoto E w version todo Dir.down := by
  simp only [Goto]
  rw [if_neg (show ¬version > Version w by omega), if_pos h, ht]

theorem goto_up_error {σ : Type} (E : Env σ) (inst : List Migration) (w : World σ)
    (version : Int) (j : Int) (h : Version w < version)
    (ht : buildTodo (lookup inst) (upVersions (Version w) version) = Except.error j) :
    Goto E inst w version = (Except.error (GotoErr.noVersion j version), w, []) := by
  simp only [Goto]
  rw [if_pos (show version > Version w from h), ht]

/-! ## Lemmas about the gap check -/

theorem gapCheck_eq_none {ks : List Int} :
    ∀ last : Int, gapCheck last ks = none ↔
      ks = (List.range ks.length).map (fun (k : Nat) => last + 1 + (k : Int)) := by
  induction ks with
  | nil => intro last; simp [gapCheck]
  | cons k ks ih =>
    intro last
    have hfun : (List.range ks.length).map
          ((fun (j : Nat) => last + 1 + (j : Int)) ∘ Nat.succ) =
        (List.range ks.length).map (fun (j : Nat) => (last + 1) + 1 + (j : Int)) := by
      refine List.map_congr_left (fun j hj => ?_)
      simp only [Function.comp]
      push_cast
      ring
    rw [List.length_cons, List.range_succ_eq_map, List.map_cons, List.map_map, hfun]
    simp only [gapCheck]
    by_cases hk : k = last + 1
    · subst hk
      rw [if_neg (by simp), ih (last + 1)]
      simp
    · rw [if_pos hk]
      constructor
      · intro h; cases h
      · intro h
        obtain ⟨h1, -⟩ := List.cons_eq_cons.mp h
        simp only [Nat.cast_zero, add_zero] at h1
        exact absurd h1 hk

theorem length_insertAsc (x : Int) (l : List Int) :
    (insertAsc x l).length = l.length + 1 := by
  induction l with
  | nil => rfl
  | cons y ys ih =>
    simp only [insertAsc]
    split
    · simp
    · simp [ih]

theorem length_sortAsc (l : List Int) : (sortAsc l).length = l.length := by
  induction l with
  | nil => rfl
  | cons x xs ih => simp [sortAsc, length_insertAsc, ih]

/-! ## Lemmas about the running maximum of `Latest` -/

theorem le_foldl_max (l : List Int) (a : Int) : a ≤ l.foldl max a := by
  induction l generalizing a with
  | nil => simp
  | cons x xs ih =>
    rw [List.foldl_cons]
    exact le_trans (le_max_left a x) (ih (max a x))

theorem mem_le_foldl_max {x : Int} {l : List Int} (hx : x ∈ l) (a : Int) :
    x ≤ l.foldl max a := by
  induction l generalizing a with
  | nil => cases hx
  | cons y ys ih =>
    rw [List.foldl_cons]
    rcases List.mem_cons.mp hx with rfl | h
    · exact le_trans (le_max_right a x) (le_foldl_max ys (max a x))
    · exact ih h (max a y)

theorem foldl_max_mem (l : List Int) (a : Int) : l.foldl max a = a ∨ l.foldl max a ∈ l := by
  induction l generalizing a with
  | nil => left; rfl
  | cons y ys ih =>
    rw [List.foldl_cons]
    rcases ih (max a y) with h | h
    · rcases max_choice a y with h' | h'
      · left; rw [h, h']
      · right; rw [h, h']; exact List.mem_cons_self ..
    · right; exact List.mem_cons_of_mem _ h

/-! ## Lemmas about `strconv.Atoi` -/

theorem parseDigits_eq_some {cs : List Char} {n : Nat} :
    parseDigits cs = some n ↔
      cs ≠ [] ∧ (∀ c ∈ cs, isDigit c = true) ∧ n = digitsVal cs := by
  constructor
  · intro hp
    rw [parseDigits] at hp
    split at hp
    · rename_i hcond
      cases hp
      exact ⟨hcond.1, List.all_eq_true.mp hcond.2, rfl⟩
    · cases hp
  · rintro ⟨h1, h2, rfl⟩
    rw [parseDigits, if_pos ⟨h1, List.all_eq_true.mpr h2⟩]

theorem atoiCore_eq_some {neg : Bool} {ds : List Char} {v : Int} :
    atoiCore neg ds = some v ↔
      ds ≠ [] ∧ (∀ c ∈ ds, isDigit c = true) ∧
      v = cond neg (-(digitsVal ds : Int)) (digitsVal ds : Int) ∧
      -(2 ^ 63) ≤ v ∧ v ≤ 2 ^ 63 - 1 := by
  unfold atoiCore
  cases hp : parseDigits ds with
  | none =>
    constructor
    · intro h; cases h
    · rintro ⟨h1, h2, -⟩
      rw [parseDigits_eq_some.mpr ⟨h1, h2, rfl⟩] at hp
      cases hp
  | some n =>
    obtain ⟨h1, h2, rfl⟩ := parseDigits_eq_some.mp hp
    cases neg with
    | false =>
      simp only [cond_false]
      constructor
      · intro h
        split at h
        · cases h
        · rename_i hrange
          push_neg at hrange
          cases h
          exact ⟨h1, h2, rfl, hrange.1, by omega⟩
      · rintro ⟨-, -, rfl, hlo, hhi⟩
        rw [if_neg (by omega)]
    | true =>
      simp only [cond_true]
      constructor
      · intro h
        split at h
        · cases h
        · rename_i hrange
          push_neg at hrange
          cases h
          exact ⟨h1, h2, rfl, hrange.1, by omega⟩
      · rintro ⟨-, -, rfl, hlo, hhi⟩
        rw [if_neg (by omega)]

theorem isDigit_ne_sign {c : Char} (h : isDigit c = true) : c ≠ '-' ∧ c ≠ '+' := by
  constructor
  · rintro rfl; simp [isDigit] at h
  · rintro rfl; simp [isDigit] at h

theorem atoi_eq_some {cs : List Char} {v : Int} :
    atoi cs = some v ↔
      ∃ sign ds, cs = sign ++ ds ∧ (sign = [] ∨ sign = ['+'] ∨ sign = ['-']) ∧
        ds ≠ [] ∧ (∀ c ∈ ds, isDigit c = true) ∧
        v = (if sign = ['-'] then -(digitsVal ds : Int) else (digitsVal ds : Int)) ∧
        -(2 ^ 63) ≤ v ∧ v ≤ 2 ^ 63 - 1 := by
  cases cs with
  | nil =>
    constructor
    · intro h; cases h
    · rintro ⟨sign, ds, heq, hsign, hne, -⟩
      rcases List.append_eq_nil.mp heq.symm with ⟨-, h2⟩
      exact absurd h2 hne
  | cons c rest =>
    by_cases hminus : c = '-'
    · subst hminus
      rw [show atoi ('-' :: rest) = atoiCore true rest from rfl, atoiCore_eq_some]
      constructor
      · rintro ⟨h1, h2, h3, h4, h5⟩
        exact ⟨['-'], rest, rfl, Or.inr (Or.inr rfl), h1, h2, by simpa using h3, h4, h5⟩
      · rintro ⟨sign, ds, heq, hsign, hne, hdig, hv, hlo, hhi⟩
        rcases hsign with rfl | rfl | rfl
        · rw [List.nil_append] at heq
          subst heq
          have : isDigit '-' = true := hdig '-' (List.mem_cons_self ..)
          simp [isDigit] at this
        · obtain ⟨h1, -⟩ := List.cons_eq_cons.mp heq
          cases h1
        · obtain ⟨-, rfl⟩ := List.cons_eq_cons.mp heq
          exact ⟨hne, hdig, by simpa using hv, hlo, hhi⟩
    · by_cases hplus : c = '+'
      · subst hplus
        rw [show atoi ('+' :: rest) = atoiCore false rest from rfl, atoiCore_eq_some]
        constructor
        · rintro ⟨h1, h2, h3, h4, h5⟩
          exact ⟨['+'], rest, rfl, Or.inr (Or.inl rfl), h1, h2, by simpa using h3, h4, h5⟩
        · rintro ⟨sign, ds, heq, hsign, hne, hdig, hv, hlo, hhi⟩
          rcases hsign with rfl | rfl | rfl
          · rw [List.nil_append] at heq
            subst heq
            have : isDigit '+' = true := hdig '+' (List.mem_cons_self ..)
            simp [isDigit] at this
          · obtain ⟨-, rfl⟩ := List.cons_eq_cons.mp heq
            exact ⟨hne, hdig, by simpa using hv, hlo, hhi⟩
          · obtain ⟨h1, -⟩ := List.cons_eq_cons.mp heq
            cases h1
      · rw [show atoi (c :: rest) = if c = '-' then atoiCore true rest
              else if c = '+' then atoiCore false rest
              else atoiCore false (c :: rest) from rfl,
            if_neg hminus, if_neg hplus, atoiCore_eq_some]
        constructor
        · rintro ⟨h1, h2, h3, h4, h5⟩
          exact ⟨[], c :: rest, rfl, Or.inl rfl, h1, h2, by simpa using h3, h4, h5⟩
        · rintro ⟨sign, ds, heq, hsign, hne, hdig, hv, hlo, hhi⟩
          rcases hsign with rfl | rfl | rfl
          · rw [List.nil_append] at heq
            subst heq
            exact ⟨hne, hdig, by simpa using hv, hlo, hhi⟩
          · obtain ⟨h1, -⟩ := List.cons_eq_cons.mp heq
            exact absurd h1 hplus
          · obtain ⟨h1, -⟩ := List.cons_eq_cons.mp heq
            exact absurd h1 hminus

theorem parseVersionName_of_atoi {name : List Char} {v : Int}
    (hc : ¬(name.length < 9 ∨ name.take 8 ≠ "version_".data))
    (ha : atoi (name.drop 8) = some v) (h0 : v ≠ 0) :
    parseVersionName name = Except.ok v := by
  unfold parseVersionName
  rw [if_neg hc, ha]
  show (if v = 0 then (Except.error NameErr.reservedZero : Except NameErr Int)
      else Except.ok v) = Except.ok v
  rw [if_neg h0]

theorem parseVersionName_ok_iff {name : List Char} :
    (∃ v, parseVersionName name = Except.ok v) ↔ amendedAccepts name := by
  constructor
  · rintro ⟨v, hv⟩
    rw [parseVersionName.eq_def] at hv
    split at hv
    · cases hv
    · rename_i hcond
      push_neg at hcond
      obtain ⟨hlen, hpre⟩ := hcond
      cases ha : atoi (name.drop 8) with
      | none => rw [ha] at hv; cases hv
      | some v' =>
        rw [ha] at hv
        have hv' : (if v' = 0 then (Except.error NameErr.reservedZero : Except NameErr Int)
            else Except.ok v') = Except.ok v := hv
        by_cases hv0 : v' = 0
        · rw [if_pos hv0] at hv'; cases hv'
        · rw [if_neg hv0] at hv'
          cases hv'
          obtain ⟨sign, ds, hds, hsign, hne, hdig, hval, hlo, hhi⟩ := atoi_eq_some.mp ha
          refine ⟨sign, ds, ?_, hsign, hne, hdig, ?_, ?_, ?_⟩
          · conv_lhs => rw [← List.take_append_drop 8 name]
            rw [hpre, hds]
          · rw [← hval]; exact hlo
          · rw [← hval]; exact hhi
          · rw [← hval]; exact hv0
  · rintro ⟨sign, ds, heq, hsign, hne, hdig, hlo, hhi, hne0⟩
    have hlen8 : ("version_".data : List Char).length = 8 := rfl
    have htake : name.take 8 = "version_".data := by
      rw [heq, ← hlen8, List.take_left]
    have hdrop : name.drop 8 = sign ++ ds := by
      rw [heq, ← hlen8, List.drop_left]
    have hlen : 9 ≤ name.length := by
      rw [heq, List.length_append, List.length_append, hlen8]
      have := List.length_pos.mpr hne
      omega
    refine ⟨if sign = ['-'] then -(digitsVal ds : Int) else (digitsVal ds : Int), ?_⟩
    refine parseVersionName_of_atoi (by push_neg; exact ⟨by omega, htake⟩) ?_ hne0
    rw [hdrop]
    exact atoi_eq_some.mpr ⟨sign, ds, rfl, hsign, hne, hdig, rfl, hlo, hhi⟩

/-! ## Unfolding lemmas for `runGoto` -/

theorem runGoto_of_ok {σ : Type} (E : Env σ) (w : World σ) (version : Int)
    (todo : List Migration) (d : Dir) {tx : σ} {tr : List Ev}
    (hb : E.beginOk = true)
    (hrun : runTodo E d w.db todo = (some tx, tr)) :
    runGoto E w version todo d =
      (if E.commitOk tx then
        if E.setOk then
          (Except.ok (), ⟨tx, some version⟩, Ev.begin :: tr ++ [Ev.commit, Ev.setVersion version])
        else
          (Except.error GotoErr.setFail, ⟨tx, w.ledger⟩,
            Ev.begin :: tr ++ [Ev.commit, Ev.setVersion version])
      else (Except.error GotoErr.commitFail, w, Ev.begin :: tr ++ [Ev.commit])) := by
  unfold runGoto
  rw [if_pos hb, hrun]

theorem runGoto_of_fail {σ : Type} (E : Env σ) (w : World σ) (version : Int)
    (todo : List Migration) (d : Dir) {tr : List Ev}
    (hb : E.beginOk = true)
    (hrun : runTodo E d w.db todo = (none, tr)) :
    runGoto E w version todo d =
      (Except.error GotoErr.applyFail, w, Ev.begin :: tr ++ [Ev.rollback]) := by
  unfold runGoto
  rw [if_pos hb, hrun]

/-! ## The claims -/

/-- C1: for `Goto(target)` with `target < Version()`, the step list is the
Migrations for versions `current-1, current-2, …, target+1` in strictly
descending order, the current version's Migration is not in the list, and
within each selected Migration the down-bodies of its parts are executed
in the stored part order, not reversed. -/
theorem goto_down_steplist {σ : Type} (E : Env σ) (inst : List Migration) (w : World σ)
    (target : Int) (todo : List Migration)
    (hlt : target < Version w)
    (htodo : buildTodo (lookup inst) (downVersions (Version w) target) = Except.ok todo) :
    todo.map (fun m => m.version) = downVersions (Version w) target ∧
    (todo.map (fun m => m.version)).Pairwise (fun a b => b < a) ∧
    Version w ∉ todo.map (fun m => m.version) ∧
    (∀ i, i ∈ todo.map (fun m => m.version) ↔ target < i ∧ i < Version w) ∧
    Goto E inst w target = runGoto E w target todo Dir.down ∧
    (∀ (tx : σ) (m : Migration),
      (applyParts E Dir.down tx m.parts).evs = m.parts.map (fun p => Ev.exec p.down)) := by
  have hmap := buildTodo_ok_map (fun i m h => lookup_version h) htodo
  refine ⟨hmap, ?_, ?_, ?_, goto_down_run E inst w target todo hlt htodo, ?_⟩
  · rw [hmap]
    exact downVersions_pairwise ..
  · rw [hmap, mem_downVersions]
    omega
  · intro i
    rw [hmap]
    exact mem_downVersions
  · intro tx m
    rw [applyParts_evs]
    rfl

/-- C1 witness: a concrete downward plan, `Goto(1)` from version 3 on the
three-migration instance, whose step list is just migration 2. -/
theorem goto_down_steplist_witness :
    Goto envAll inst3 ⟨[], some 3⟩ 1 = runGoto envAll ⟨[], some 3⟩ 1 [mig2] Dir.down ∧
    [mig2].map (fun m => m.version) = downVersions (Version (⟨[], some 3⟩ : World DB)) 1 := by
  have h := goto_down_steplist envAll inst3 ⟨[], some 3⟩ 1 [mig2] (by decide) (by decide)
  exact ⟨h.2.2.2.2.1, h.1⟩

/-- C2: the round-trip property fails on the code. From the pristine state,
`Goto(1)` applies migration 1's up-body; the subsequent `Goto(0)` builds an
empty step list (versions `current-1, …, target+1` excludes the current
version 1), so it executes no SQL at all: migration 1's down-body is never
run and the database still contains the effect of the up migration, while
the repo's own tests and package documentation expect `Goto(0)` to undo
every applied migration. -/
theorem goto_roundtrip_skips_top_down :
    Goto envAll inst1 ⟨[], none⟩ 1 =
      (Except.ok (), ⟨["U1".data], some 1⟩,
        [Ev.begin, Ev.exec "U1".data, Ev.commit, Ev.setVersion 1]) ∧
    Goto envAll inst1 ⟨["U1".data], some 1⟩ 0 =
      (Except.ok (), ⟨["U1".data], some 0⟩, [Ev.begin, Ev.commit, Ev.setVersion 0]) := by
  constructor
  · decide
  · decide

/-- C3: with current version `c`, `Goto(c-1)` selects zero migrations and
executes no SQL; given `Begin`, `Commit` and the ledger `Set` succeed it
returns success and persists `c-1`, for any instance — even one with no
migration for version `c-1`. -/
theorem goto_prev_version_no_sql {σ : Type} (E : Env σ) (inst : List Migration) (w : World σ)
    (hb : E.beginOk = true) (hc : E.commitOk w.db = true) (hs : E.setOk = true) :
    downVersions (Version w) (Version w - 1) = [] ∧
    Goto E inst w (Version w - 1) =
      (Except.ok (), ⟨w.db, some (Version w - 1)⟩,
        [Ev.begin, Ev.commit, Ev.setVersion (Version w - 1)]) := by
  have hdv : downVersions (Version w) (Version w - 1) = [] := by
    unfold downVersions
    rw [show (Version w - (Version w - 1) - 1).toNat = 0 by omega]
    rfl
  refine ⟨hdv, ?_⟩
  rw [goto_down_run E inst w (Version w - 1) [] (by omega) (by rw [hdv]; rfl)]
  rw [runGoto_of_ok E w (Version w - 1) [] Dir.down hb rfl]
  rw [if_pos hc, if_pos hs]
  rfl

/-- C3 witness: from pristine version 0, `Goto(-1)` succeeds without
executing SQL and stores `-1` in the ledger, on an instance that has no
migration for version `-1`. -/
theorem goto_prev_version_no_sql_witness :
    Goto envAll inst3 ⟨[], none⟩ (-1) =
      (Except.ok (), ⟨[], some (-1)⟩, [Ev.begin, Ev.commit, Ev.setVersion (-1)]) := by
  have h := (goto_prev_version_no_sql envAll inst3 ⟨[], none⟩ rfl rfl rfl).2
  simpa using h

/-- C4: during `Goto`, a part failure does not abort the remaining parts of
its Migration (all are attempted, failures accumulated); once that
Migration's parts finish, the transaction is rolled back immediately, no
later Migration runs, the world (database and ledger) is unchanged, and
the call returns the generic apply failure. -/
theorem goto_part_failure_accumulates {σ : Type} (E : Env σ) (inst : List Migration)
    (w : World σ) (target : Int) (d : Dir) (ms1 : List Migration) (m : Migration)
    (ms2 : List Migration) (tx1 : σ) (tr1 : List Ev)
    (hb : E.beginOk = true)
    (h1 : runTodo E d w.db ms1 = (some tx1, tr1))
    (hf : (applyParts E d tx1 m.parts).failed ≠ 0) :
    (applyParts E d tx1 m.parts).evs = m.parts.map (fun p => Ev.exec (stmtOf d p)) ∧
    runGoto E w target (ms1 ++ m :: ms2) d =
      (Except.error GotoErr.applyFail, w,
        Ev.begin :: (tr1 ++ (applyParts E d tx1 m.parts).evs) ++ [Ev.rollback]) ∧
    (d = Dir.up → Version w < target →
      buildTodo (lookup inst) (upVersions (Version w) target) = Except.ok (ms1 ++ m :: ms2) →
      Goto E inst w target =
        (Except.error GotoErr.applyFail, w,
          Ev.begin :: (tr1 ++ (applyParts E d tx1 m.parts).evs) ++ [Ev.rollback])) ∧
    (d = Dir.down → target < Version w →
      buildTodo (lookup inst) (downVersions (Version w) target) = Except.ok (ms1 ++ m :: ms2) →
      Goto E inst w target =
        (Except.error GotoErr.applyFail, w,
          Ev.begin :: (tr1 ++ (applyParts E d tx1 m.parts).evs) ++ [Ev.rollback])) := by
  have hcons : runTodo E d tx1 (m :: ms2) = (none, (applyParts E d tx1 m.parts).evs) := by
    simp only [runTodo]
    rw [if_pos hf]
  have hrun : runTodo E d w.db (ms1 ++ m :: ms2) =
      (none, tr1 ++ (applyParts E d tx1 m.parts).evs) := by
    rw [runTodo_append E d (m :: ms2) h1, hcons]
  have hrg := runGoto_of_fail E w target (ms1 ++ m :: ms2) d hb hrun
  refine ⟨applyParts_evs .., hrg, ?_, ?_⟩
  · rintro rfl hlt htodo
    rw [goto_up_run E inst w target _ hlt htodo]
    exact hrg
  · rintro rfl hlt htodo
    rw [goto_down_run E inst w target _ hlt htodo]
    exact hrg

/-- C4 witness: under `envBad` the middle part of `migBad` fails while its
first and third parts are still attempted; `runGoto` rolls back right
after `migBad` and never reaches the following migration. -/
theorem goto_part_failure_accumulates_witness :
    (applyParts envBad Dir.up (["U1".data] : DB) migBad.parts).evs =
      migBad.parts.map (fun p => Ev.exec (stmtOf Dir.up p)) ∧
    runGoto envBad (⟨[], none⟩ : World DB) 3 ([mig1] ++ migBad :: [mig3]) Dir.up =
      (Except.error GotoErr.applyFail, ⟨[], none⟩,
        Ev.begin :: ([Ev.exec "U1".data] ++
          (applyParts envBad Dir.up (["U1".data] : DB) migBad.parts).evs) ++ [Ev.rollback]) := by
  have h := goto_part_failure_accumulates envBad [] (⟨[], none⟩ : World DB) 3 Dir.up
    [mig1] migBad [mig3] ["U1".data] [Ev.exec "U1".data] rfl (by decide) (by decide)
  exact ⟨h.1, h.2.1⟩

/-- C5: for `Goto(target)` with `target > Version()`, the step list is the
Migrations for versions `current+1, …, target`, each looked up by exact
version key; if any version in that range is absent the call fails with
the `ErrNoVersion` "migration for version N does not exist" error before
a transaction is begun and before any SQL statement is executed (no
events, world unchanged). -/
theorem goto_up_missing_version {σ : Type} (E : Env σ) (inst : List Migration) (w : World σ)
    (target : Int) (hgt : Version w < target) :
    (∀ todo, buildTodo (lookup inst) (upVersions (Version w) target) = Except.ok todo →
      todo.map (fun m => m.version) = upVersions (Version w) target ∧
      ∀ m ∈ todo, lookup inst m.version = some m) ∧
    (∀ j, buildTodo (lookup inst) (upVersions (Version w) target) = Except.error j →
      (Version w < j ∧ j ≤ target) ∧ lookup inst j = none ∧
      Goto E inst w target = (Except.error (GotoErr.noVersion j target), w, [])) ∧
    ((∃ i, (Version w < i ∧ i ≤ target) ∧ lookup inst i = none) →
      ∃ j, buildTodo (lookup inst) (upVersions (Version w) target) = Except.error j) := by
  refine ⟨?_, ?_, ?_⟩
  · intro todo htodo
    refine ⟨buildTodo_ok_map (fun i m h => lookup_version h) htodo, ?_⟩
    intro m hm
    obtain ⟨i, hi, hfi⟩ := buildTodo_ok_mem htodo m hm
    rw [lookup_version hfi]
    exact hfi
  · intro j hj
    obtain ⟨hmem, hnone⟩ := buildTodo_error_spec hj
    exact ⟨mem_upVersions.mp hmem, hnone, goto_up_error E inst w target j hgt hj⟩
  · rintro ⟨i, hi, hnone⟩
    cases hb : buildTodo (lookup inst) (upVersions (Version w) target) with
    | error j => exact ⟨j, rfl⟩
    | ok ms =>
      obtain ⟨m, hm⟩ := buildTodo_ok_found hb i (mem_upVersions.mpr hi)
      rw [hnone] at hm
      cases hm

/-- C5 witness: on the instance missing version 2, `Goto(3)` from the
pristine state fails with `ErrNoVersion` for version 2, with no events
and an unchanged world. -/
theorem goto_up_missing_version_witness :
    Goto envAll instHole ⟨[], none⟩ 3 =
      (Except.error (GotoErr.noVersion 2 3), ⟨[], none⟩, []) := by
  have h := (goto_up_missing_version envAll instHole (⟨[], none⟩ : World DB) 3
    (by decide)).2.1 2 (by decide)
  exact h.2.2

/-- C6: when every Migration in the step list applies with zero failed
parts, `Goto` commits the transaction and only afterwards writes the
target version to the ledger (the step trace contains no ledger write);
if the commit itself fails, the call returns the commit error without
attempting the ledger write, leaving the stored version unchanged. -/
theorem goto_commit_before_ledger {σ : Type} (E : Env σ) (inst : List Migration)
    (w : World σ) (target : Int) (d : Dir) (todo : List Migration) (tx : σ) (tr : List Ev)
    (hb : E.beginOk = true)
    (hrun : runTodo E d w.db todo = (some tx, tr)) :
    (∀ v, Ev.setVersion v ∉ tr) ∧
    (E.commitOk tx = true → E.setOk = true →
      runGoto E w target todo d =
        (Except.ok (), ⟨tx, some target⟩,
          Ev.begin :: tr ++ [Ev.commit, Ev.setVersion target])) ∧
    (E.commitOk tx = false →
      runGoto E w target todo d =
        (Except.error GotoErr.commitFail, w, Ev.begin :: tr ++ [Ev.commit])) ∧
    (d = Dir.up → Version w < target →
      buildTodo (lookup inst) (upVersions (Version w) target) = Except.ok todo →
      Goto E inst w target = runGoto E w target todo d) ∧
    (d = Dir.down → target < Version w →
      buildTodo (lookup inst) (downVersions (Version w) target) = Except.ok todo →
      Goto E inst w target = runGoto E w target todo d) := by
  refine ⟨?_, ?_, ?_, ?_, ?_⟩
  · intro v hv
    have h2 : (runTodo E d w.db todo).2 = tr := by rw [hrun]
    obtain ⟨s, hs⟩ := runTodo_evs_exec E d w.db todo (Ev.setVersion v) (by rw [h2]; exact hv)
    cases hs
  · intro hc hs
    rw [runGoto_of_ok E w target todo d hb hrun, if_pos hc, if_pos hs]
  · intro hc
    rw [runGoto_of_ok E w target todo d hb hrun, if_neg (by rw [hc]; exact Bool.false_ne_true)]
  · rintro rfl hlt htodo
    exact goto_up_run E inst w target todo hlt htodo
  · rintro rfl hlt htodo
    exact goto_down_run E inst w target todo hlt htodo

/-- C6 witness: a fully successful upward `Goto(1)` commits and then
persists version 1, while under the commit-failing environment the same
plan yields the commit error with the ledger untouched. -/
theorem goto_commit_before_ledger_witness :
    runGoto envAll (⟨[], none⟩ : World DB) 1 [mig1] Dir.up =
      (Except.ok (), ⟨["U1".data], some 1⟩,
        Ev.begin :: [Ev.exec "U1".data] ++ [Ev.commit, Ev.setVersion 1]) ∧
    runGoto envNoCommit (⟨[], none⟩ : World DB) 1 [mig1] Dir.up =
      (Except.error GotoErr.commitFail, ⟨[], none⟩,
        Ev.begin :: [Ev.exec "U1".data] ++ [Ev.commit]) := by
  constructor
  · exact (goto_commit_before_ledger envAll [] (⟨[], none⟩ : World DB) 1 Dir.up [mig1]
      ["U1".data] [Ev.exec "U1".data] rfl (by decide)).2.1 rfl rfl
  · exact (goto_commit_before_ledger envNoCommit [] (⟨[], none⟩ : World DB) 1 Dir.up [mig1]
      ["U1".data] [Ev.exec "U1".data] rfl (by decide)).2.2.1 rfl

/-- C7: part parsing accumulates content cumulatively per direction: a
marker line merely re-selects the active target (any number of times),
and a non-blank trimmed line is appended to the active body with no
separator; the file `-- @migrate/up\nA\nB\n-- @migrate/down\nC` parses to
up-body `AB` and down-body `C`. -/
theorem newPart_accumulation :
    NewPartContent ("-- @migrate/up\nA\nB\n-- @migrate/down\nC".data) =
      Except.ok ("AB".data, "C".data) ∧
    (∀ acc line d, matchMarker (trim line) = some d →
      scanLine acc line = Except.ok { acc with which := Which.ofDir d }) ∧
    (∀ acc line, matchMarker (trim line) = none → trim line ≠ [] → acc.which = Which.up →
      scanLine acc line = Except.ok { acc with up := acc.up ++ trim line }) ∧
    (∀ acc line, matchMarker (trim line) = none → trim line ≠ [] → acc.which = Which.down →
      scanLine acc line = Except.ok { acc with down := acc.down ++ trim line }) := by
  refine ⟨by decide, ?_, ?_, ?_⟩
  · intro acc line d h
    simp only [scanLine]
    rw [h]
  · intro acc line h hne hwhich
    obtain ⟨u, dn, wh⟩ := acc
    have hw : wh = Which.up := hwhich
    subst hw
    simp only [scanLine]
    rw [h, if_neg hne]
  · intro acc line h hne hwhich
    obtain ⟨u, dn, wh⟩ := acc
    have hw : wh = Which.down := hwhich
    subst hw
    simp only [scanLine]
    rw [h, if_neg hne]

/-- C7 witness: scanning the line `A` in the up state appends to the up
body without touching the down body, and a second `-- @migrate/up` marker
in the down state re-selects the up target. -/
theorem newPart_accumulation_witness :
    scanLine ⟨"X".data, "Y".data, Which.up⟩ ("A".data) =
      Except.ok ⟨"XA".data, "Y".data, Which.up⟩ ∧
    scanLine ⟨"X".data, "Y".data, Which.down⟩ ("-- @migrate/up".data) =
      Except.ok ⟨"X".data, "Y".data, Which.up⟩ := by
  constructor
  · have h := newPart_accumulation.2.2.1 ⟨"X".data, "Y".data, Which.up⟩ ("A".data)
      (by decide) (by decide) rfl
    rw [h]
    rfl
  · have h := newPart_accumulation.2.1 ⟨"X".data, "Y".data, Which.down⟩
      ("-- @migrate/up".data) Dir.up (by decide)
    rw [h]
    rfl

/-- C8: `NewInstance` sorts the discovered versions ascending and walks
from an implicit version 0 requiring each key to equal the previous plus
one; the discovered set `{1,2,4}` yields the gap error referencing 2 and
4, a smallest version other than 1 yields the gap error between 0 and
that version, and the check passes exactly when the sorted keys are
`1, 2, …, n`. -/
theorem newInstance_gap_detection :
    NewInstanceGap [1, 2, 4] = some (2, 4) ∧
    (∀ versions v vs, sortAsc versions = v :: vs → v ≠ 1 →
      NewInstanceGap versions = some (0, v)) ∧
    (∀ versions : List Int, NewInstanceGap versions = none ↔
      sortAsc versions = (List.range versions.length).map (fun (k : Nat) => (k : Int) + 1)) := by
  refine ⟨by decide, ?_, ?_⟩
  · intro versions v vs hs hv
    unfold NewInstanceGap
    rw [hs]
    simp only [gapCheck]
    rw [if_pos (by omega)]
  · intro versions
    unfold NewInstanceGap
    have h := @gapCheck_eq_none (sortAsc versions) 0
    rw [length_sortAsc] at h
    have hfun : (List.range versions.length).map (fun (k : Nat) => (0 : Int) + 1 + (k : Int)) =
        (List.range versions.length).map (fun (k : Nat) => (k : Int) + 1) := by
      refine List.map_congr_left (fun j hj => ?_)
      ring
    rw [hfun] at h
    exact h

/-- C8 witness: the discovered set `{2,3}` (smallest version 2, not 1) is
rejected with the gap error between 0 and 2. -/
theorem newInstance_gap_detection_witness :
    NewInstanceGap [2, 3] = some (0, 2) := by
  exact newInstance_gap_detection.2.1 [2, 3] 2 [3] (by decide) (by decide)

/-- C9 counterexample: the directory name `version_+1`, whose suffix
begins with a `'+'` sign, is accepted by the name validation of
`NewMigration` with version 1, because `strconv.Atoi` permits an optional
leading `'+'`; the claim's naming convention (no leading `'+'`) would
reject it. -/
theorem newMigration_name_plus_sign :
    ("version_+1".data).drop 8 = ['+', '1'] ∧
    parseVersionName ("version_+1".data) = Except.ok 1 := by
  constructor
  · decide
  · decide

/-- C9 (amended): `NewMigration` accepts a directory name iff it is
`version_` followed by an optional `'+'` or `'-'` sign and one or more
decimal digits whose signed value fits in 64 bits and is nonzero; a name
shorter than 9 characters or lacking the `version_` prefix fails with the
bad-format error, a non-numeric (or out-of-range) suffix fails with the
propagated parse failure, and a parsed version 0 fails with the distinct
reserved-version error. -/
theorem newMigration_name_amended :
    (∀ name : List Char, (∃ v, parseVersionName name = Except.ok v) ↔ amendedAccepts name) ∧
    (∀ name : List Char, (name.length < 9 ∨ name.take 8 ≠ "version_".data) →
      parseVersionName name = Except.error NameErr.badFormat) ∧
    (∀ name : List Char, ¬(name.length < 9 ∨ name.take 8 ≠ "version_".data) →
      atoi (name.drop 8) = none →
      parseVersionName name = Except.error NameErr.parseFail) ∧
    (∀ name : List Char, ¬(name.length < 9 ∨ name.take 8 ≠ "version_".data) →
      atoi (name.drop 8) = some 0 →
      parseVersionName name = Except.error NameErr.reservedZero) := by
  refine ⟨fun name => parseVersionName_ok_iff, ?_, ?_, ?_⟩
  · intro name hc
    unfold parseVersionName
    rw [if_pos hc]
  · intro name hc ha
    unfold parseVersionName
    rw [if_neg hc, ha]
  · intro name hc ha
    unfold parseVersionName
    rw [if_neg hc, ha]
    show (if (0 : Int) = 0 then (Except.error NameErr.reservedZero : Except NameErr Int)
        else Except.ok 0) = Except.error NameErr.reservedZero
    rw [if_pos rfl]

/-- C9 witness: the short name `ver` fails with the bad-format error, and
`version_3` is accepted with version 3. -/
theorem newMigration_name_amended_witness :
    parseVersionName ("ver".data) = Except.error NameErr.badFormat ∧
    (∃ v, parseVersionName ("version_3".data) = Except.ok v) := by
  constructor
  · exact newMigration_name_amended.2.1 ("ver".data) (by decide)
  · refine (newMigration_name_amended.1 ("version_3".data)).mpr ?_
    refine ⟨[], ['3'], by decide, Or.inl rfl, by decide, by decide, by decide, by decide, by decide⟩

/-- C10: `Latest` computes the target as the maximum of the discovered
versions (for a nonempty instance with versions at least 1); if that
target is at most the current version it fails with the `ErrNoMigrations`
"already at latest" error without emitting any event or changing the
world, and otherwise it delegates to `Goto(target)` and returns its
result verbatim. -/
theorem latest_max_delegation {σ : Type} (E : Env σ) (inst : List Migration) (w : World σ)
    (hne : inst ≠ []) (hpos : ∀ m ∈ inst, 1 ≤ m.version) :
    (latestVersion inst ∈ inst.map (fun m => m.version) ∧
      ∀ m ∈ inst, m.version ≤ latestVersion inst) ∧
    (latestVersion inst ≤ Version w →
      Latest E inst w = (Except.error (GotoErr.alreadyLatest (Version w)), w, [])) ∧
    (Version w < latestVersion inst →
      Latest E inst w = Goto E inst w (latestVersion inst)) := by
  have hfold : latestVersion inst = (inst.map (fun m => m.version)).foldl max 0 := by
    rw [latestVersion, List.foldl_map]
  refine ⟨⟨?_, ?_⟩, ?_, ?_⟩
  · rcases foldl_max_mem (inst.map (fun m => m.version)) 0 with h | h
    · exfalso
      obtain ⟨m, hm⟩ := List.exists_mem_of_ne_nil inst hne
      have h1 : m.version ≤ (inst.map (fun m => m.version)).foldl max 0 :=
        mem_le_foldl_max (List.mem_map_of_mem (fun m => m.version) hm) 0
      have h2 := hpos m hm
      omega
    · rw [hfold]
      exact h
  · intro m hm
    have h1 := mem_le_foldl_max (List.mem_map_of_mem (fun m => m.version) hm) 0
    rw [← hfold] at h1
    exact h1
  · intro hle
    unfold Latest
    rw [if_pos hle]
  · intro hlt
    unfold Latest
    rw [if_neg (by omega)]

/-- C10 witness: at version 3 on the three-migration instance, `Latest`
fails with the already-at-latest error and no events; at version 2 it
delegates to `Goto(3)`. -/
theorem latest_max_delegation_witness :
    Latest envAll inst3 ⟨[], some 3⟩ =
      (Except.error (GotoErr.alreadyLatest 3), ⟨[], some 3⟩, []) ∧
    Latest envAll inst3 ⟨[], some 2⟩ = Goto envAll inst3 ⟨[], some 2⟩ 3 := by
  constructor
  · have h := (latest_max_delegation envAll inst3 (⟨[], some 3⟩ : World DB)
      (by decide) (by decide)).2.1 (by decide)
    simpa using h
  · have h := (latest_max_delegation envAll inst3 (⟨[], some 2⟩ : World DB)
      (by decide) (by decide)).2.2 (by decide)
    simpa using h

end Migrate
